import Mathlib

/-!
Shallow embedding of the gravitational N-body core of the three-body demo
(`apps/three-body/tests.js`): the force law `computeAccelerations`, the RK4
stepper `rk4Step`, the diagnostics `calculateEnergy` and `calculateMomentum`,
the driver `runSimulation`, and the `figure8` / `lagrange` presets.

A JavaScript array of N body records is embedded as a function `Fin n → Body`
over exact real arithmetic (`ℝ`, with `Real.sqrt` for `Math.sqrt`).  The
mutating double loop of `computeAccelerations` is embedded as a left fold over
the explicit list of index pairs `(i, j)` with `i < j`, threading the
accumulator array as a function `Fin n → Accel`; the single accumulating loops
of the diagnostics are embedded as left folds in the same way.
-/

namespace ThreeBody

noncomputable section

/-- `const G = 1` from the source. -/
def G : ℝ := 1

/-- `const SOFTENING = 0.01` from the source. -/
def SOFTENING : ℝ := 0.01

/-- A body record `{ x, y, vx, vy, m }`. -/
structure Body where
  x : ℝ
  y : ℝ
  vx : ℝ
  vy : ℝ
  m : ℝ

/-- An acceleration record `{ ax, ay }`. -/
structure Accel where
  ax : ℝ
  ay : ℝ

/-- The index pairs `(i, j)` with `i < j` visited by the double loop
`for i in [0,n) { for j in (i,n) { ... } }` of `computeAccelerations`,
in loop order. -/
def pairs (n : ℕ) : List (Fin n × Fin n) :=
  (List.finRange n).flatMap fun i =>
    ((List.finRange n).filter fun j => i < j).map fun j => (i, j)

/-- One iteration of the inner loop body of `computeAccelerations`: for the
pair `(i, j)` it adds `f·m_j·(dx,dy)` to `acc[i]` and subtracts `f·m_i·(dx,dy)`
from `acc[j]`, where `dx, dy` are the coordinate differences `j − i`,
`r2 = dx² + dy² + SOFTENING²`, `r = sqrt r2`, `r3 = r2·r` and `f = G / r3`. -/
def applyPair {n : ℕ} (bodies : Fin n → Body) (acc : Fin n → Accel)
    (p : Fin n × Fin n) : Fin n → Accel :=
  let dx := (bodies p.2).x - (bodies p.1).x
  let dy := (bodies p.2).y - (bodies p.1).y
  let r2 := dx * dx + dy * dy + SOFTENING * SOFTENING
  let r := Real.sqrt r2
  let r3 := r2 * r
  let f := G / r3
  fun k =>
    if k = p.1 then
      ⟨(acc p.1).ax + f * (bodies p.2).m * dx, (acc p.1).ay + f * (bodies p.2).m * dy⟩
    else if k = p.2 then
      ⟨(acc p.2).ax - f * (bodies p.1).m * dx, (acc p.2).ay - f * (bodies p.1).m * dy⟩
    else acc k

/-- `computeAccelerations(bodies)`: fold the inner loop body over all index
pairs `(i, j)` with `i < j`, starting from the all-zero accumulator. -/
def computeAccelerations {n : ℕ} (bodies : Fin n → Body) : Fin n → Accel :=
  (pairs n).foldl (applyPair bodies) (fun _ => ⟨0, 0⟩)

/-- A derivative record `{ dx, dy, dvx, dvy }` as built for `k1 .. k4`. -/
structure Deriv where
  dx : ℝ
  dy : ℝ
  dvx : ℝ
  dvy : ℝ

/-- The helper `addState(base, delta, scale)` nested in `rk4Step`. -/
def addState {n : ℕ} (base : Fin n → Body) (delta : Fin n → Deriv) (scale : ℝ) :
    Fin n → Body := fun i =>
  { x := (base i).x + (delta i).dx * scale
    y := (base i).y + (delta i).dy * scale
    vx := (base i).vx + (delta i).dvx * scale
    vy := (base i).vy + (delta i).dvy * scale
    m := (base i).m }

/-- `rk4Step(bodies, dt)`, stage by stage as in the source. -/
def rk4Step {n : ℕ} (bodies : Fin n → Body) (dt : ℝ) : Fin n → Body :=
  let acc1 := computeAccelerations bodies
  let k1 : Fin n → Deriv := fun i =>
    ⟨(bodies i).vx, (bodies i).vy, (acc1 i).ax, (acc1 i).ay⟩
  let state2 := addState bodies k1 (dt / 2)
  let acc2 := computeAccelerations state2
  let k2 : Fin n → Deriv := fun i =>
    ⟨(state2 i).vx, (state2 i).vy, (acc2 i).ax, (acc2 i).ay⟩
  let state3 := addState bodies k2 (dt / 2)
  let acc3 := computeAccelerations state3
  let k3 : Fin n → Deriv := fun i =>
    ⟨(state3 i).vx, (state3 i).vy, (acc3 i).ax, (acc3 i).ay⟩
  let state4 := addState bodies k3 dt
  let acc4 := computeAccelerations state4
  let k4 : Fin n → Deriv := fun i =>
    ⟨(state4 i).vx, (state4 i).vy, (acc4 i).ax, (acc4 i).ay⟩
  fun i =>
    { x := (bodies i).x + ((k1 i).dx + 2 * (k2 i).dx + 2 * (k3 i).dx + (k4 i).dx) * dt / 6
      y := (bodies i).y + ((k1 i).dy + 2 * (k2 i).dy + 2 * (k3 i).dy + (k4 i).dy) * dt / 6
      vx := (bodies i).vx + ((k1 i).dvx + 2 * (k2 i).dvx + 2 * (k3 i).dvx + (k4 i).dvx) * dt / 6
      vy := (bodies i).vy + ((k1 i).dvy + 2 * (k2 i).dvy + 2 * (k3 i).dvy + (k4 i).dvy) * dt / 6
      m := (bodies i).m }

/-- An energy record `{ KE, PE, total }`. -/
structure Energy where
  KE : ℝ
  PE : ℝ
  total : ℝ

/-- `calculateEnergy(bodies)`: the nested accumulating loop, embedded as a
fold over `i` whose step first adds the kinetic term of body `i` and then
folds the inner loop over the `j > i`, subtracting each pair potential. -/
def calculateEnergy {n : ℕ} (bodies : Fin n → Body) : Energy :=
  let s :=
    (List.finRange n).foldl
      (fun (s : ℝ × ℝ) i =>
        let b := bodies i
        let s1 : ℝ × ℝ := (s.1 + 0.5 * b.m * (b.vx * b.vx + b.vy * b.vy), s.2)
        ((List.finRange n).filter fun j => i < j).foldl
          (fun (t : ℝ × ℝ) j =>
            let bj := bodies j
            let dx := bj.x - b.x
            let dy := bj.y - b.y
            let r := Real.sqrt (dx * dx + dy * dy + SOFTENING * SOFTENING)
            (t.1, t.2 - G * b.m * bj.m / r))
          s1)
      (0, 0)
  ⟨s.1, s.2, s.1 + s.2⟩

/-- `calculateMomentum(bodies)`: the accumulating loop over all bodies,
returning `(px, py)`. -/
def calculateMomentum {n : ℕ} (bodies : Fin n → Body) : ℝ × ℝ :=
  (List.finRange n).foldl
    (fun (p : ℝ × ℝ) i => (p.1 + (bodies i).m * (bodies i).vx,
                           p.2 + (bodies i).m * (bodies i).vy))
    (0, 0)

/-- `runSimulation(bodies, steps, dt)`: apply `rk4Step` `steps` times.  The
source deep-copies the input first; in the pure embedding the copy is the
identity. -/
def runSimulation {n : ℕ} (bodies : Fin n → Body) (steps : ℕ) (dt : ℝ) :
    Fin n → Body :=
  match steps with
  | 0 => bodies
  | s + 1 => rk4Step (runSimulation bodies s dt) dt

/-- The acceleration contribution on a body `bi` due to a body `bj`, exactly
as the loop of `computeAccelerations` applies it (`f · m_j · (dx, dy)` with
`dx, dy` the coordinate differences `j − i` and `f = G / r³` over the softened
distance). -/
def accelContrib (bi bj : Body) : ℝ × ℝ :=
  let dx := bj.x - bi.x
  let dy := bj.y - bi.y
  let r2 := dx * dx + dy * dy + SOFTENING * SOFTENING
  let r := Real.sqrt r2
  let r3 := r2 * r
  let f := G / r3
  (f * bj.m * dx, f * bj.m * dy)

/-- The State Derivative of spec §4.2: position-derivative is the current
velocity, velocity-derivative is the total acceleration from the force law.
In `rk4Step` each `k1 .. k4` is definitionally `deriv` of the stage state. -/
def deriv {n : ℕ} (st : Fin n → Body) : Fin n → Deriv := fun i =>
  ⟨(st i).vx, (st i).vy, (computeAccelerations st i).ax, (computeAccelerations st i).ay⟩

/-- Sum of two Derivative records, componentwise (for spec §4.3's
`k1 + 2·k2 + 2·k3 + k4`). -/
def Deriv.add (a b : Deriv) : Deriv := ⟨a.dx + b.dx, a.dy + b.dy, a.dvx + b.dvx, a.dvy + b.dvy⟩

/-- Scaling of a Derivative record by a real factor. -/
def Deriv.smul (c : ℝ) (a : Deriv) : Deriv := ⟨c * a.dx, c * a.dy, c * a.dvx, c * a.dvy⟩

/-- The classical four-stage Runge-Kutta step exactly as spec §4.3 writes it:
`k1 = Derivative(state)`, `k2 = Derivative(state + k1·dt/2)`,
`k3 = Derivative(state + k2·dt/2)`, `k4 = Derivative(state + k3·dt)`,
`new_state = state + (k1 + 2·k2 + 2·k3 + k4) · dt/6`. -/
def rk4SpecStep {n : ℕ} (state : Fin n → Body) (dt : ℝ) : Fin n → Body :=
  let k1 := deriv state
  let k2 := deriv (addState state k1 (dt / 2))
  let k3 := deriv (addState state k2 (dt / 2))
  let k4 := deriv (addState state k3 dt)
  addState state
    (fun i => (((k1 i).add (Deriv.smul 2 (k2 i))).add (Deriv.smul 2 (k3 i))).add (k4 i))
    (dt / 6)

/-- `PRESETS.figure8` from the source, with its decimal literals read as exact
rationals. -/
def figure8 : Fin 3 → Body :=
  ![⟨-0.97000436, 0.24308753, 0.4662036850, 0.4323657300, 1⟩,
    ⟨0.97000436, -0.24308753, 0.4662036850, 0.4323657300, 1⟩,
    ⟨0, 0, -0.93240737, -0.86473146, 1⟩]

/-- `PRESETS.lagrange` from the source. -/
def lagrange : Fin 3 → Body :=
  ![⟨0, 1, 0.5, 0, 1⟩,
    ⟨-0.866, -0.5, -0.25, 0.433, 1⟩,
    ⟨0.866, -0.5, -0.25, -0.433, 1⟩]

/-- The second RK4 stage state `state2 = state + k1·dt/2`. -/
def rkStage2 {n : ℕ} (bodies : Fin n → Body) (dt : ℝ) : Fin n → Body :=
  addState bodies (deriv bodies) (dt / 2)

/-- The third RK4 stage state `state3 = state + k2·dt/2`. -/
def rkStage3 {n : ℕ} (bodies : Fin n → Body) (dt : ℝ) : Fin n → Body :=
  addState bodies (deriv (rkStage2 bodies dt)) (dt / 2)

/-- The fourth RK4 stage state `state4 = state + k3·dt`. -/
def rkStage4 {n : ℕ} (bodies : Fin n → Body) (dt : ℝ) : Fin n → Body :=
  addState bodies (deriv (rkStage3 bodies dt)) dt

/-- Kinetic term of one body: `0.5 · m · (vx² + vy²)`. -/
def keTerm (b : Body) : ℝ := 0.5 * b.m * (b.vx * b.vx + b.vy * b.vy)

/-- Magnitude of the pair potential `G · m_i · m_j / r` over the softened
distance, as subtracted by the inner loop of `calculateEnergy`. -/
def pePair (bi bj : Body) : ℝ :=
  G * bi.m * bj.m /
    Real.sqrt ((bj.x - bi.x) * (bj.x - bi.x) + (bj.y - bi.y) * (bj.y - bi.y)
      + SOFTENING * SOFTENING)

/-- The total pair potential magnitude subtracted during row `i` of the
nested loop of `calculateEnergy`. -/
def peRow {n : ℕ} (bodies : Fin n → Body) (i : Fin n) : ℝ :=
  (((List.finRange n).filter fun j => i < j).map fun j => pePair (bodies i) (bodies j)).sum

/-- The outer loop body of `calculateEnergy`, named for reasoning; its body is
the verbatim step function of the fold in `calculateEnergy`. -/
def energyStep {n : ℕ} (bodies : Fin n → Body) (s : ℝ × ℝ) (i : Fin n) : ℝ × ℝ :=
  let b := bodies i
  let s1 : ℝ × ℝ := (s.1 + 0.5 * b.m * (b.vx * b.vx + b.vy * b.vy), s.2)
  ((List.finRange n).filter fun j => i < j).foldl
    (fun (t : ℝ × ℝ) j =>
      let bj := bodies j
      let dx := bj.x - b.x
      let dy := bj.y - b.y
      let r := Real.sqrt (dx * dx + dy * dy + SOFTENING * SOFTENING)
      (t.1, t.2 - G * b.m * bj.m / r))
    s1

/-- The softened distance `r = sqrt(dx² + dy² + ε²)` of spec §4.1, shared by
the force law and the potential energy. -/
def softenedDist (bi bj : Body) : ℝ :=
  Real.sqrt ((bj.x - bi.x) * (bj.x - bi.x) + (bj.y - bi.y) * (bj.y - bi.y)
    + SOFTENING * SOFTENING)

/-- Kinetic energy as the spec words it: sum over bodies of
`½ · mass · (vx² + vy²)`. -/
def specKE {n : ℕ} (bodies : Fin n → Body) : ℝ :=
  ∑ i, 1 / 2 * (bodies i).m * ((bodies i).vx * (bodies i).vx + (bodies i).vy * (bodies i).vy)

/-- Potential energy as the spec words it: sum over all unique unordered
pairs `(i, j)` of `− G · mass_i · mass_j / r_ij` over the softened distance. -/
def specPE {n : ℕ} (bodies : Fin n → Body) : ℝ :=
  ∑ i, ∑ j ∈ Finset.univ.filter (fun j => i < j),
    -(G * (bodies i).m * (bodies j).m / softenedDist (bodies i) (bodies j))

/-! ### Fold characterizations -/

/-- A left fold that accumulates `f` into the first component and `g` into the
second is the pair of list sums. -/
lemma foldl_pair_add {α : Type*} (l : List α) (f g : α → ℝ) (s t : ℝ) :
    l.foldl (fun p b => (p.1 + f b, p.2 + g b)) (s, t)
      = (s + (l.map f).sum, t + (l.map g).sum) := by
  induction l generalizing s t with
  | nil => simp
  | cons x xs ih => simp [ih, add_assoc]

/-- The momentum loop computes the mass-weighted velocity sums. -/
lemma calculateMomentum_eq {n : ℕ} (bodies : Fin n → Body) :
    calculateMomentum bodies
      = (∑ i, (bodies i).m * (bodies i).vx, ∑ i, (bodies i).m * (bodies i).vy) := by
  unfold calculateMomentum
  rw [foldl_pair_add]
  simp [Fin.sum_univ_def]

/-- Every pair visited by the double loop of `computeAccelerations` has
strictly increasing indices. -/
lemma pairs_mem_lt {n : ℕ} {p : Fin n × Fin n} (hp : p ∈ pairs n) : p.1 < p.2 := by
  unfold pairs at hp
  simp only [List.mem_flatMap, List.mem_map, List.mem_filter] at hp
  obtain ⟨i, _, j, hj, rfl⟩ := hp
  simpa using hj.2

/-- Weighted sum over a two-point update of an indexed family. -/
lemma sum_mul_update {n : ℕ} (p : Fin n × Fin n) (hp : p.1 ≠ p.2)
    (w base : Fin n → ℝ) (a b : ℝ) :
    ∑ k, w k * (if k = p.1 then a else if k = p.2 then b else base k)
      = (∑ k, w k * base k) + w p.1 * (a - base p.1) + w p.2 * (b - base p.2) := by
  have h : ∀ k, w k * (if k = p.1 then a else if k = p.2 then b else base k)
      = w k * base k + ((if k = p.1 then w p.1 * (a - base p.1) else 0)
          + (if k = p.2 then w p.2 * (b - base p.2) else 0)) := by
    intro k
    by_cases h1 : k = p.1
    · subst h1
      rw [if_pos rfl, if_pos rfl, if_neg hp]
      ring
    · by_cases h2 : k = p.2
      · subst h2
        rw [if_neg h1, if_neg h1, if_pos rfl, if_pos rfl]
        ring
      · simp [h1, h2]
  rw [Finset.sum_congr rfl fun k _ => h k, Finset.sum_add_distrib, Finset.sum_add_distrib,
    Fintype.sum_ite_eq', Fintype.sum_ite_eq']
  ring

/-- One inner-loop iteration of `computeAccelerations` leaves the
mass-weighted acceleration sums unchanged: the two sides of the pair receive
exactly opposite momentum contributions. -/
lemma applyPair_wsum {n : ℕ} (bodies : Fin n → Body) (acc : Fin n → Accel)
    (p : Fin n × Fin n) (hp : p.1 ≠ p.2) :
    (∑ k, (bodies k).m * ((applyPair bodies acc p) k).ax)
        = (∑ k, (bodies k).m * (acc k).ax) ∧
    (∑ k, (bodies k).m * ((applyPair bodies acc p) k).ay)
        = (∑ k, (bodies k).m * (acc k).ay) := by
  constructor
  · have hax : ∀ k, ((applyPair bodies acc p) k).ax
        = (if k = p.1 then (acc p.1).ax
              + (G / ((((bodies p.2).x - (bodies p.1).x) * ((bodies p.2).x - (bodies p.1).x)
                  + ((bodies p.2).y - (bodies p.1).y) * ((bodies p.2).y - (bodies p.1).y)
                  + SOFTENING * SOFTENING)
                * Real.sqrt (((bodies p.2).x - (bodies p.1).x) * ((bodies p.2).x - (bodies p.1).x)
                  + ((bodies p.2).y - (bodies p.1).y) * ((bodies p.2).y - (bodies p.1).y)
                  + SOFTENING * SOFTENING)) * (bodies p.2).m * ((bodies p.2).x - (bodies p.1).x))
           else if k = p.2 then (acc p.2).ax
              + (-(G / ((((bodies p.2).x - (bodies p.1).x) * ((bodies p.2).x - (bodies p.1).x)
                  + ((bodies p.2).y - (bodies p.1).y) * ((bodies p.2).y - (bodies p.1).y)
                  + SOFTENING * SOFTENING)
                * Real.sqrt (((bodies p.2).x - (bodies p.1).x) * ((bodies p.2).x - (bodies p.1).x)
                  + ((bodies p.2).y - (bodies p.1).y) * ((bodies p.2).y - (bodies p.1).y)
                  + SOFTENING * SOFTENING)) * (bodies p.1).m * ((bodies p.2).x - (bodies p.1).x)))
           else (acc k).ax) := by
      intro k
      simp only [applyPair]
      by_cases h1 : k = p.1
      · simp [h1]
      · by_cases h2 : k = p.2
        · simp [h1, h2, hp.symm, sub_eq_add_neg]
        · simp [h1, h2]
    rw [Finset.sum_congr rfl fun k _ => by rw [hax k], sum_mul_update p hp]
    ring
  · have hay : ∀ k, ((applyPair bodies acc p) k).ay
        = (if k = p.1 then (acc p.1).ay
              + (G / ((((bodies p.2).x - (bodies p.1).x) * ((bodies p.2).x - (bodies p.1).x)
                  + ((bodies p.2).y - (bodies p.1).y) * ((bodies p.2).y - (bodies p.1).y)
                  + SOFTENING * SOFTENING)
                * Real.sqrt (((bodies p.2).x - (bodies p.1).x) * ((bodies p.2).x - (bodies p.1).x)
                  + ((bodies p.2).y - (bodies p.1).y) * ((bodies p.2).y - (bodies p.1).y)
                  + SOFTENING * SOFTENING)) * (bodies p.2).m * ((bodies p.2).y - (bodies p.1).y))
           else if k = p.2 then (acc p.2).ay
              + (-(G / ((((bodies p.2).x - (bodies p.1).x) * ((bodies p.2).x - (bodies p.1).x)
                  + ((bodies p.2).y - (bodies p.1).y) * ((bodies p.2).y - (bodies p.1).y)
                  + SOFTENING * SOFTENING)
                * Real.sqrt (((bodies p.2).x - (bodies p.1).x) * ((bodies p.2).x - (bodies p.1).x)
                  + ((bodies p.2).y - (bodies p.1).y) * ((bodies p.2).y - (bodies p.1).y)
                  + SOFTENING * SOFTENING)) * (bodies p.1).m * ((bodies p.2).y - (bodies p.1).y)))
           else (acc k).ay) := by
      intro k
      simp only [applyPair]
      by_cases h1 : k = p.1
      · simp [h1]
      · by_cases h2 : k = p.2
        · simp [h1, h2, hp.symm, sub_eq_add_neg]
        · simp [h1, h2]
    rw [Finset.sum_congr rfl fun k _ => by rw [hay k], sum_mul_update p hp]
    ring

/-- Folding the inner loop over any list of non-degenerate pairs preserves the
mass-weighted acceleration sums. -/
lemma foldl_applyPair_wsum {n : ℕ} (bodies : Fin n → Body)
    (ps : List (Fin n × Fin n)) (hps : ∀ p ∈ ps, p.1 ≠ p.2) (acc : Fin n → Accel) :
    (∑ k, (bodies k).m * ((ps.foldl (applyPair bodies) acc) k).ax)
        = (∑ k, (bodies k).m * (acc k).ax) ∧
    (∑ k, (bodies k).m * ((ps.foldl (applyPair bodies) acc) k).ay)
        = (∑ k, (bodies k).m * (acc k).ay) := by
  induction ps generalizing acc with
  | nil => exact ⟨rfl, rfl⟩
  | cons q qs ih =>
    have hq : q.1 ≠ q.2 := hps q (by simp)
    have hqs : ∀ p ∈ qs, p.1 ≠ p.2 := fun p hp => hps p (by simp [hp])
    have h1 := applyPair_wsum bodies acc q hq
    have h2 := ih hqs (applyPair bodies acc q)
    exact ⟨by rw [List.foldl_cons, h2.1, h1.1], by rw [List.foldl_cons, h2.2, h1.2]⟩

/-- The mass-weighted sum of all accelerations computed by
`computeAccelerations` is exactly zero, in both coordinates. -/
lemma computeAccelerations_wsum {n : ℕ} (bodies : Fin n → Body) :
    (∑ k, (bodies k).m * (computeAccelerations bodies k).ax) = 0 ∧
    (∑ k, (bodies k).m * (computeAccelerations bodies k).ay) = 0 := by
  have h := foldl_applyPair_wsum bodies (pairs n)
    (fun p hp => ne_of_lt (pairs_mem_lt hp)) (fun _ => ⟨0, 0⟩)
  unfold computeAccelerations
  refine ⟨?_, ?_⟩
  · rw [h.1]; simp
  · rw [h.2]; simp

/-! ### RK4 stage characterization and momentum conservation -/

/-- The velocity update of `rk4Step`, written through the stage states. -/
lemma rk4Step_vx_eq {n : ℕ} (bodies : Fin n → Body) (dt : ℝ) (i : Fin n) :
    (rk4Step bodies dt i).vx = (bodies i).vx +
      ((computeAccelerations bodies i).ax
        + 2 * (computeAccelerations (rkStage2 bodies dt) i).ax
        + 2 * (computeAccelerations (rkStage3 bodies dt) i).ax
        + (computeAccelerations (rkStage4 bodies dt) i).ax) * dt / 6 := rfl

/-- The `vy` analogue of `rk4Step_vx_eq`. -/
lemma rk4Step_vy_eq {n : ℕ} (bodies : Fin n → Body) (dt : ℝ) (i : Fin n) :
    (rk4Step bodies dt i).vy = (bodies i).vy +
      ((computeAccelerations bodies i).ay
        + 2 * (computeAccelerations (rkStage2 bodies dt) i).ay
        + 2 * (computeAccelerations (rkStage3 bodies dt) i).ay
        + (computeAccelerations (rkStage4 bodies dt) i).ay) * dt / 6 := rfl

/-- A weighted RK4 velocity combination sums to the weighted old velocities
when each stage's weighted acceleration sum vanishes. -/
lemma sum_weighted_rk4 {n : ℕ} (dt : ℝ) (w v A1 A2 A3 A4 : Fin n → ℝ)
    (h1 : ∑ i, w i * A1 i = 0) (h2 : ∑ i, w i * A2 i = 0)
    (h3 : ∑ i, w i * A3 i = 0) (h4 : ∑ i, w i * A4 i = 0) :
    ∑ i, w i * (v i + (A1 i + 2 * A2 i + 2 * A3 i + A4 i) * dt / 6)
      = ∑ i, w i * v i := by
  have e : ∀ i, w i * (v i + (A1 i + 2 * A2 i + 2 * A3 i + A4 i) * dt / 6)
      = w i * v i + ((w i * A1 i) * (dt / 6) + (w i * A2 i) * (dt / 3)
          + (w i * A3 i) * (dt / 3) + (w i * A4 i) * (dt / 6)) := fun i => by ring
  rw [Finset.sum_congr rfl fun i _ => e i, Finset.sum_add_distrib]
  have hz : ∑ i, ((w i * A1 i) * (dt / 6) + (w i * A2 i) * (dt / 3)
      + (w i * A3 i) * (dt / 3) + (w i * A4 i) * (dt / 6)) = 0 := by
    rw [Finset.sum_add_distrib, Finset.sum_add_distrib, Finset.sum_add_distrib,
      ← Finset.sum_mul, ← Finset.sum_mul, ← Finset.sum_mul, ← Finset.sum_mul,
      h1, h2, h3, h4]
    ring
  rw [hz, add_zero]

/-- One RK4 step conserves total momentum exactly. -/
lemma momentum_step {n : ℕ} (bodies : Fin n → Body) (dt : ℝ) :
    calculateMomentum (rk4Step bodies dt) = calculateMomentum bodies := by
  rw [calculateMomentum_eq, calculateMomentum_eq]
  have hm2 : ∑ i, (bodies i).m * (computeAccelerations (rkStage2 bodies dt) i).ax = 0 :=
    (computeAccelerations_wsum (rkStage2 bodies dt)).1
  have hm3 : ∑ i, (bodies i).m * (computeAccelerations (rkStage3 bodies dt) i).ax = 0 :=
    (computeAccelerations_wsum (rkStage3 bodies dt)).1
  have hm4 : ∑ i, (bodies i).m * (computeAccelerations (rkStage4 bodies dt) i).ax = 0 :=
    (computeAccelerations_wsum (rkStage4 bodies dt)).1
  have hn2 : ∑ i, (bodies i).m * (computeAccelerations (rkStage2 bodies dt) i).ay = 0 :=
    (computeAccelerations_wsum (rkStage2 bodies dt)).2
  have hn3 : ∑ i, (bodies i).m * (computeAccelerations (rkStage3 bodies dt) i).ay = 0 :=
    (computeAccelerations_wsum (rkStage3 bodies dt)).2
  have hn4 : ∑ i, (bodies i).m * (computeAccelerations (rkStage4 bodies dt) i).ay = 0 :=
    (computeAccelerations_wsum (rkStage4 bodies dt)).2
  simp only [Prod.mk.injEq]
  constructor
  · have hx : ∀ i, (rk4Step bodies dt i).m * (rk4Step bodies dt i).vx
        = (bodies i).m * ((bodies i).vx +
            ((computeAccelerations bodies i).ax
              + 2 * (computeAccelerations (rkStage2 bodies dt) i).ax
              + 2 * (computeAccelerations (rkStage3 bodies dt) i).ax
              + (computeAccelerations (rkStage4 bodies dt) i).ax) * dt / 6) := fun i => rfl
    rw [Finset.sum_congr rfl fun i _ => hx i]
    exact sum_weighted_rk4 dt _ _ _ _ _ _ (computeAccelerations_wsum bodies).1 hm2 hm3 hm4
  · have hy : ∀ i, (rk4Step bodies dt i).m * (rk4Step bodies dt i).vy
        = (bodies i).m * ((bodies i).vy +
            ((computeAccelerations bodies i).ay
              + 2 * (computeAccelerations (rkStage2 bodies dt) i).ay
              + 2 * (computeAccelerations (rkStage3 bodies dt) i).ay
              + (computeAccelerations (rkStage4 bodies dt) i).ay) * dt / 6) := fun i => rfl
    rw [Finset.sum_congr rfl fun i _ => hy i]
    exact sum_weighted_rk4 dt _ _ _ _ _ _ (computeAccelerations_wsum bodies).2 hn2 hn3 hn4

/-- Momentum is conserved exactly over any number of simulation steps. -/
lemma momentum_run {n : ℕ} (bodies : Fin n → Body) (steps : ℕ) (dt : ℝ) :
    calculateMomentum (runSimulation bodies steps dt) = calculateMomentum bodies := by
  induction steps with
  | zero => rfl
  | succ s ih => rw [runSimulation, momentum_step, ih]

/-- Unfolding of `deriv` at function position. -/
lemma deriv_def {n : ℕ} (st : Fin n → Body) :
    deriv st = fun i =>
      (⟨(st i).vx, (st i).vy, (computeAccelerations st i).ax,
        (computeAccelerations st i).ay⟩ : Deriv) := rfl

/-- The source stepper agrees with the spec's RK4 formula. -/
lemma rk4Step_eq_spec {n : ℕ} (bodies : Fin n → Body) (dt : ℝ) :
    rk4Step bodies dt = rk4SpecStep bodies dt := by
  funext i
  simp only [rk4Step, rk4SpecStep, deriv_def, addState, Deriv.add, Deriv.smul]
  simp only [Body.mk.injEq]
  refine ⟨by ring, by ring, by ring, by ring, trivial⟩

/-! ### Energy characterization -/

/-- `calculateEnergy` is the fold of `energyStep`, definitionally. -/
lemma calculateEnergy_def {n : ℕ} (bodies : Fin n → Body) :
    calculateEnergy bodies =
      ⟨((List.finRange n).foldl (energyStep bodies) (0, 0)).1,
       ((List.finRange n).foldl (energyStep bodies) (0, 0)).2,
       ((List.finRange n).foldl (energyStep bodies) (0, 0)).1
         + ((List.finRange n).foldl (energyStep bodies) (0, 0)).2⟩ := rfl

/-- A left fold that keeps the first component and subtracts `g` from the
second is a list-sum subtraction. -/
lemma foldl_snd_sub {α : Type*} (l : List α) (g : α → ℝ) (a b : ℝ) :
    l.foldl (fun t j => (t.1, t.2 - g j)) (a, b) = (a, b - (l.map g).sum) := by
  induction l generalizing b with
  | nil => simp
  | cons x xs ih => simp [ih, sub_sub]

/-- One outer-loop iteration adds the kinetic term and subtracts the row's
pair potentials. -/
lemma energyStep_eq {n : ℕ} (bodies : Fin n → Body) (s : ℝ × ℝ) (i : Fin n) :
    energyStep bodies s i = (s.1 + keTerm (bodies i), s.2 - peRow bodies i) :=
  foldl_snd_sub _ (fun j => pePair (bodies i) (bodies j)) _ _

/-- The fold of `energyStep` accumulates kinetic terms and subtracts row
potentials. -/
lemma foldl_energyStep {n : ℕ} (bodies : Fin n → Body) (l : List (Fin n)) (a b : ℝ) :
    l.foldl (energyStep bodies) (a, b)
      = (a + (l.map fun i => keTerm (bodies i)).sum, b - (l.map (peRow bodies)).sum) := by
  induction l generalizing a b with
  | nil => simp
  | cons x xs ih => rw [List.foldl_cons, energyStep_eq, ih]; simp [add_assoc, sub_sub]

/-- Sum of a mapped filtered list as a sum of guarded terms. -/
lemma filter_map_sum {α : Type*} (l : List α) (q : α → Bool) (f : α → ℝ) :
    ((l.filter q).map f).sum = (l.map fun j => if q j then f j else 0).sum := by
  induction l with
  | nil => simp
  | cons x xs ih => by_cases h : q x <;> simp [List.filter_cons, h, ih]

/-- The row potential as a `Finset` sum over the indices `j > i`. -/
lemma peRow_eq {n : ℕ} (bodies : Fin n → Body) (i : Fin n) :
    peRow bodies i = ∑ j ∈ Finset.univ.filter (fun j => i < j), pePair (bodies i) (bodies j) := by
  unfold peRow
  rw [filter_map_sum, Finset.sum_filter, Fin.sum_univ_def]
  simp

/-- `pePair` is the magnitude of the spec's pair potential over
`softenedDist`. -/
lemma pePair_eq (bi bj : Body) :
    pePair bi bj = G * bi.m * bj.m / softenedDist bi bj := rfl

/-- The energy loop computes exactly the spec's kinetic and potential sums,
and the total is their sum. -/
lemma calculateEnergy_spec {n : ℕ} (bodies : Fin n → Body) :
    calculateEnergy bodies = ⟨specKE bodies, specPE bodies, specKE bodies + specPE bodies⟩ := by
  rw [calculateEnergy_def, foldl_energyStep]
  have hKE : (0:ℝ) + ((List.finRange n).map fun i => keTerm (bodies i)).sum = specKE bodies := by
    rw [zero_add, specKE, Fin.sum_univ_def]
    refine congrArg List.sum (List.map_congr_left fun i _ => ?_)
    unfold keTerm
    norm_num
  have hPE : (0:ℝ) - ((List.finRange n).map (peRow bodies)).sum = specPE bodies := by
    rw [zero_sub, specPE]
    have : ∀ i : Fin n, ∑ j ∈ Finset.univ.filter (fun j => i < j),
        -(G * (bodies i).m * (bodies j).m / softenedDist (bodies i) (bodies j))
          = -(peRow bodies i) := by
      intro i
      rw [peRow_eq]
      rw [← Finset.sum_neg_distrib]
      refine Finset.sum_congr rfl fun j _ => ?_
      rw [pePair_eq]
    rw [Finset.sum_congr rfl fun i _ => this i, Finset.sum_neg_distrib, Fin.sum_univ_def]
  rw [hKE, hPE]

/-! ### Softening bounds -/

/-- The softened distance is bounded below by the softening length. -/
lemma softenedDist_ge (bi bj : Body) : SOFTENING ≤ softenedDist bi bj := by
  have hS : (0:ℝ) < SOFTENING := by norm_num [SOFTENING]
  have h2 : SOFTENING * SOFTENING
      ≤ (bj.x - bi.x) * (bj.x - bi.x) + (bj.y - bi.y) * (bj.y - bi.y)
        + SOFTENING * SOFTENING := by
    nlinarith [mul_self_nonneg (bj.x - bi.x), mul_self_nonneg (bj.y - bi.y)]
  calc SOFTENING = Real.sqrt (SOFTENING * SOFTENING) := (Real.sqrt_mul_self hS.le).symm
    _ ≤ softenedDist bi bj := Real.sqrt_le_sqrt h2

/-! ### Claim theorems -/

/-- C1: `rk4Step` conserves the total momentum computed by
`calculateMomentum` exactly, for every System and every `dt`; consequently
momentum is unchanged over any number of `runSimulation` steps, and in
particular the momentum drift of the figure-eight preset advanced 10,000
steps at `dt = 0.001` is below `1e-10` in absolute terms (it is exactly
zero in exact arithmetic). -/
theorem momentum_conservation :
    (∀ (n : ℕ) (bodies : Fin n → Body) (dt : ℝ),
      calculateMomentum (rk4Step bodies dt) = calculateMomentum bodies) ∧
    (∀ (n : ℕ) (bodies : Fin n → Body) (steps : ℕ) (dt : ℝ),
      calculateMomentum (runSimulation bodies steps dt) = calculateMomentum bodies) ∧
    |(calculateMomentum (runSimulation figure8 10000 0.001)).1
      - (calculateMomentum figure8).1| < 1e-10 ∧
    |(calculateMomentum (runSimulation figure8 10000 0.001)).2
      - (calculateMomentum figure8).2| < 1e-10 := by
  refine ⟨fun n bodies dt => momentum_step bodies dt,
          fun n bodies steps dt => momentum_run bodies steps dt, ?_, ?_⟩
  · rw [momentum_run, sub_self, abs_zero]; norm_num
  · rw [momentum_run, sub_self, abs_zero]; norm_num

/-- C2: Newton's third law for the force law.  The per-pair contribution
`accelContrib` applied by the loop of `computeAccelerations` satisfies
`m_i · accel(i←j) = −(m_j · accel(j←i))` exactly, in both coordinates; hence
the mass-weighted sum of all accelerations returned by
`computeAccelerations` is exactly zero. -/
theorem newton_third_law :
    (∀ bi bj : Body,
      bi.m * (accelContrib bi bj).1 = -(bj.m * (accelContrib bj bi).1) ∧
      bi.m * (accelContrib bi bj).2 = -(bj.m * (accelContrib bj bi).2)) ∧
    (∀ (n : ℕ) (bodies : Fin n → Body),
      (∑ i, (bodies i).m * (computeAccelerations bodies i).ax) = 0 ∧
      (∑ i, (bodies i).m * (computeAccelerations bodies i).ay) = 0) := by
  refine ⟨fun bi bj => ?_, fun n bodies => computeAccelerations_wsum bodies⟩
  simp only [accelContrib]
  have hsym : (bi.x - bj.x) * (bi.x - bj.x) + (bi.y - bj.y) * (bi.y - bj.y)
        + SOFTENING * SOFTENING
      = (bj.x - bi.x) * (bj.x - bi.x) + (bj.y - bi.y) * (bj.y - bi.y)
        + SOFTENING * SOFTENING := by ring
  rw [hsym]
  constructor <;> ring

/-- C3: `rk4Step` implements the classical four-stage Runge-Kutta scheme of
spec §4.3, as formalized by `rk4SpecStep` over the State Derivative
`deriv`. -/
theorem rk4_classical_scheme : ∀ (n : ℕ) (bodies : Fin n → Body) (dt : ℝ),
    rk4Step bodies dt = rk4SpecStep bodies dt :=
  fun _ bodies dt => rk4Step_eq_spec bodies dt

/-- C4, counterexample: the claim that the softening length is `0.1` (with
`G = 1`) is false on the code, whose constant is `SOFTENING = 0.01`. -/
theorem softening_is_not_point_one : ¬ (SOFTENING = 0.1 ∧ G = 1) := by
  intro h
  have h1 := h.1
  norm_num [SOFTENING] at h1

/-- C4, amended: the fixed softening length is `0.01` and the fixed
gravitational constant is `1`; these global constants are the ones referenced
by `computeAccelerations` and `calculateEnergy`. -/
theorem constants_values : SOFTENING = 0.01 ∧ G = 1 := ⟨rfl, rfl⟩

/-- C5: `calculateEnergy` returns kinetic energy `Σ ½·m·(vx²+vy²)`, potential
energy `Σ_{i<j} −G·m_i·m_j / r_ij` over the same softened distance as the
force law, and `total = KE + PE`. -/
theorem energy_decomposition : ∀ (n : ℕ) (bodies : Fin n → Body),
    calculateEnergy bodies
      = ⟨specKE bodies, specPE bodies, specKE bodies + specPE bodies⟩ :=
  fun _ bodies => calculateEnergy_spec bodies

/-- C7: softening makes the arithmetic total.  For every pair of bodies,
including coincident ones, the softened distance is at least `SOFTENING > 0`,
so the divisor `r` of `calculateEnergy` and the divisor `r³ = r2·r` of
`computeAccelerations` are both nonzero. -/
theorem softening_totality :
    0 < SOFTENING ∧
    ∀ bi bj : Body,
      SOFTENING ≤ softenedDist bi bj ∧
      softenedDist bi bj ≠ 0 ∧
      ((bj.x - bi.x) * (bj.x - bi.x) + (bj.y - bi.y) * (bj.y - bi.y)
        + SOFTENING * SOFTENING) * softenedDist bi bj ≠ 0 := by
  have hS : (0:ℝ) < SOFTENING := by norm_num [SOFTENING]
  refine ⟨hS, fun bi bj => ?_⟩
  have hr := softenedDist_ge bi bj
  have hrpos : 0 < softenedDist bi bj := lt_of_lt_of_le hS hr
  have h2 : 0 < (bj.x - bi.x) * (bj.x - bi.x) + (bj.y - bi.y) * (bj.y - bi.y)
      + SOFTENING * SOFTENING := by
    nlinarith [mul_self_nonneg (bj.x - bi.x), mul_self_nonneg (bj.y - bi.y)]
  exact ⟨hr, ne_of_gt hrpos, ne_of_gt (mul_pos h2 hrpos)⟩

/-- C8: the figure-eight preset has exactly zero net momentum when its
decimal literals are read as exact rationals (hence within `1e-10`), because
the first two equal-mass bodies share one velocity and the third body's
velocity is exactly its `−2` multiple. -/
theorem figure8_zero_net_momentum :
    calculateMomentum figure8 = (0, 0) ∧
    (figure8 0).vx = (figure8 1).vx ∧ (figure8 0).vy = (figure8 1).vy ∧
    (figure8 2).vx = -2 * (figure8 0).vx ∧ (figure8 2).vy = -2 * (figure8 0).vy := by
  refine ⟨?_, ?_, ?_, ?_, ?_⟩
  · rw [calculateMomentum_eq]
    simp only [Prod.mk.injEq]
    constructor <;>
      · rw [Fin.sum_univ_three]
        norm_num [figure8]
  · norm_num [figure8]
  · norm_num [figure8]
  · norm_num [figure8]
  · norm_num [figure8]

/-- C9: `rk4Step` is non-mutating and mass-preserving.  In this pure
embedding the input is a value that cannot be modified and the result type
`Fin n → Body` enforces the same number of bodies in the same order; the
computational content is that every output body carries the input body's
mass unchanged. -/
theorem rk4Step_mass_frame : ∀ (n : ℕ) (bodies : Fin n → Body) (dt : ℝ) (i : Fin n),
    (rk4Step bodies dt i).m = (bodies i).m :=
  fun _ _ _ _ => rfl

/-- C10: with `dt = 0`, `rk4Step` returns every body unchanged — the same
position, velocity and mass as the input. -/
theorem rk4Step_zero_dt_identity : ∀ (n : ℕ) (bodies : Fin n → Body),
    rk4Step bodies 0 = bodies := by
  intro n bodies
  funext i
  simp [rk4Step]

end

end ThreeBody
